import Mathlib

/-!
Shallow embedding of the recipe-management API (`TestProject`): the user
store (`core/models.py`), the recipe/tag/ingredient query filters
(`recipe/views.py`) and the nested-relation reconciliation of the recipe
serializers (`recipe/serializers.py`), together with theorems settling the
specification claims about them.

Python strings are modelled as `List Char`; the database is an explicit
record of rows; fallible Python code (unpacking, `int(...)`) returns
`Option`; HTTP outcomes are an explicit result type.
-/

namespace RecipeApp

/-- Python `str` modelled as a list of characters. -/
abbrev PyStr := List Char

/-- The `s.replace(' ', '')` from `UserManager.normalize_email`: removes every
space character (exactly the characters the Python code removes). -/
def removeSpaces (s : PyStr) : PyStr := s.filter (fun c => c ≠ ' ')

/-- The `s.lower()` applied character-wise. -/
def lowerStr (s : PyStr) : PyStr := s.map Char.toLower

/-- Python `s.split(c)`: splits `s` on every occurrence of `c`; the result
always has one more part than there are occurrences of `c`, and `"".split(c)`
is `[""]`. -/
def splitOnChar (c : Char) : PyStr → List PyStr
  | [] => [[]]
  | a :: rest =>
    if a = c then [] :: splitOnChar c rest
    else
      match splitOnChar c rest with
      | [] => [[a]]
      | h :: t => (a :: h) :: t

/-- The `email.split("@")[0]`: the part of the email before the first `'@'`
(the whole email when it has no `'@'`). -/
def localPart (email : PyStr) : PyStr := (splitOnChar '@' email).headD []

/-- The `UserManager.normalize_email`: `name, domain = email.split("@")` followed
by `f"{name.replace(' ', '')}@{domain.replace(' ','').lower()}"`.  The
two-way unpacking fails (Python `ValueError`) unless the email contains
exactly one `'@'`; failure is modelled as `none`. -/
def normalize_email (email : PyStr) : Option PyStr :=
  match splitOnChar '@' email with
  | [name, domain] => some (removeSpaces name ++ '@' :: lowerStr (removeSpaces domain))
  | _ => none

/-- A row of the user table (`core.models.User`). The password hash is kept
abstract as the raw password string; hashing is done by the excluded
framework collaborator. -/
structure User where
  id : Nat
  email : PyStr
  name : PyStr
  password : PyStr
  is_active : Bool
  is_staff : Bool
  is_superuser : Bool
deriving DecidableEq

/-- A row of the tag table (`core.models.Tag`); `user` is the owner's id. -/
structure Tag where
  id : Nat
  user : Nat
  name : PyStr
deriving DecidableEq

/-- A row of the ingredient table (`core.models.Ingredient`);
`quantity` is the fixed-point decimal scaled to an integer. -/
structure Ingredient where
  id : Nat
  user : Nat
  name : PyStr
  quantity : Int
deriving DecidableEq

/-- A row of the recipe table (`core.models.Recipe`); the two many-to-many
join tables are embedded as the id lists `tags` and `ingredients`. -/
structure Recipe where
  id : Nat
  user : Nat
  title : PyStr
  time_minutes : Int
  price : Int
  description : PyStr
  link : PyStr
  image : Option PyStr
  tags : List Nat
  ingredients : List Nat
deriving DecidableEq

/-- The database state: the four tables and the id sequences. -/
structure DB where
  users : List User
  recipes : List Recipe
  tags : List Tag
  ingredients : List Ingredient
  nextUserId : Nat
  nextRecipeId : Nat
  nextTagId : Nat
  nextIngredientId : Nat
deriving DecidableEq

/-- Extra keyword arguments accepted by `UserManager.create_user`. -/
structure CreateUserExtra where
  name : PyStr
  is_staff : Bool
  is_superuser : Bool
deriving DecidableEq

/-- Outcome of `UserManager.create_user`: the created user, or a raised
`ValueError` (from the explicit check or from `normalize_email`). -/
inductive CreateUserResult
  | ok (u : User)
  | valueError
deriving DecidableEq

/-- The `UserManager.create_user`: raises `ValueError` when
`not email or not email.split("@")[0]`; otherwise builds the user with the
normalized email (propagating the `ValueError` that `normalize_email` raises
when the email does not have exactly one `'@'`) and saves it. -/
def create_user (db : DB) (email : PyStr) (password : PyStr)
    (extra : CreateUserExtra) : DB × CreateUserResult :=
  if email = [] ∨ localPart email = [] then (db, .valueError)
  else
    match normalize_email email with
    | none => (db, .valueError)
    | some e =>
      let u : User :=
        { id := db.nextUserId, email := e, name := extra.name,
          password := password, is_active := true,
          is_staff := extra.is_staff, is_superuser := extra.is_superuser }
      ({ db with users := db.users ++ [u], nextUserId := db.nextUserId + 1 },
       .ok u)

/-- The `UserManager.create_superuser`: delegates to `create_user` forcing
`is_staff := true` and `is_superuser := true`. -/
def create_superuser (db : DB) (email : PyStr) (password : PyStr)
    (name : PyStr) : DB × CreateUserResult :=
  create_user db email password
    { name := name, is_staff := true, is_superuser := true }

section SplitLemmas

/-- The `splitOnChar` never returns the empty list. -/
theorem splitOnChar_ne_nil (c : Char) (l : PyStr) : splitOnChar c l ≠ [] := by
  cases l with
  | nil => simp [splitOnChar]
  | cons a rest =>
    simp only [splitOnChar]
    by_cases h : a = c
    · simp [h]
    · simp only [h, if_false]
      cases splitOnChar c rest <;> simp

/-- Splitting a string that does not contain the separator yields the
string itself as the single part. -/
theorem splitOnChar_of_not_mem {c : Char} {l : PyStr} (h : c ∉ l) :
    splitOnChar c l = [l] := by
  induction l with
  | nil => rfl
  | cons a rest ih =>
    simp only [List.mem_cons, not_or] at h
    have hne : ¬ a = c := fun hac => h.1 hac.symm
    simp only [splitOnChar, if_neg hne, ih h.2]

/-- Splitting at the first separator occurrence peels off the prefix. -/
theorem splitOnChar_append {c : Char} {l1 : PyStr} (l2 : PyStr) (h : c ∉ l1) :
    splitOnChar c (l1 ++ c :: l2) = l1 :: splitOnChar c l2 := by
  induction l1 with
  | nil => simp [splitOnChar]
  | cons a rest ih =>
    simp only [List.mem_cons, not_or] at h
    have hne : ¬ a = c := fun hac => h.1 hac.symm
    simp only [List.cons_append, splitOnChar, if_neg hne, List.append_eq]
    rw [ih h.2]

/-- The number of parts is one more than the number of separators. -/
theorem splitOnChar_length (c : Char) (l : PyStr) :
    (splitOnChar c l).length = l.count c + 1 := by
  induction l with
  | nil => simp [splitOnChar]
  | cons a rest ih =>
    simp only [splitOnChar]
    by_cases h : a = c
    · simp [h, List.count_cons, ih]
    · simp only [if_neg h]
      rcases he : splitOnChar c rest with _ | ⟨p, ps⟩
      · exact absurd he (splitOnChar_ne_nil c rest)
      · rw [he] at ih
        simp only [List.length_cons] at ih ⊢
        simp [List.count_cons, h, ← ih]

/-- The `normalize_email` fails exactly when the email does not contain exactly
one `'@'`. -/
theorem normalize_email_eq_none_iff (email : PyStr) :
    normalize_email email = none ↔ email.count '@' ≠ 1 := by
  have hlen := splitOnChar_length '@' email
  rcases he : splitOnChar '@' email with _ | ⟨a, _ | ⟨b, _ | ⟨d, t⟩⟩⟩ <;>
    rw [he] at hlen
  all_goals simp_all [normalize_email]
  all_goals omega

/-- The local part of the empty email is empty. -/
theorem localPart_nil : localPart [] = [] := rfl

end SplitLemmas

/-- Python whitespace characters stripped by `int(...)` (ASCII range). -/
def isPyWS (c : Char) : Bool :=
  c = ' ' ∨ c = '\t' ∨ c = '\n' ∨ c = '\r' ∨ c = '\x0b' ∨ c = '\x0c'

/-- Strip leading and trailing whitespace, as Python `int(...)` does. -/
def stripWS (s : PyStr) : PyStr :=
  ((s.dropWhile isPyWS).reverse.dropWhile isPyWS).reverse

/-- A digit run acceptable to Python `int(...)`: non-empty, decimal digits,
single underscores allowed between digits only. -/
def pyDigitsOK : PyStr → Bool
  | [] => false
  | [c] => c.isDigit
  | c :: '_' :: rest => c.isDigit && pyDigitsOK rest
  | c :: d :: rest => c.isDigit && pyDigitsOK (d :: rest)

/-- Decimal value of a digit run (underscores already removed). -/
def digitsVal (s : PyStr) : Nat :=
  s.foldl (fun acc c => acc * 10 + (c.toNat - '0'.toNat)) 0

/-- Python `int(s)` on a string: strips whitespace, accepts an optional
sign followed by a valid digit run; raises `ValueError` (modelled `none`)
otherwise. -/
def pyInt (s : PyStr) : Option Int :=
  match stripWS s with
  | '+' :: rest =>
    if pyDigitsOK rest then some (digitsVal (rest.filter (fun c => c ≠ '_')))
    else none
  | '-' :: rest =>
    if pyDigitsOK rest then
      some (-(digitsVal (rest.filter (fun c => c ≠ '_')) : Int))
    else none
  | t => if pyDigitsOK t then some (digitsVal (t.filter (fun c => c ≠ '_'))) else none

/-- Apply a fallible function to every element; the first failure aborts the
whole computation (the semantics of a Python comprehension whose body can
raise, and of serializer validation of a descriptor list). -/
def mapOrNone (f : α → Option β) : List α → Option (List β)
  | [] => some []
  | a :: rest =>
    match f a, mapOrNone f rest with
    | some b, some bs => some (b :: bs)
    | _, _ => none

/-- The `RecipeViewSet._parameters_to_list`:
`[int(param) for param in parametes.split(",")]`. -/
def parametersToList (s : PyStr) : Option (List Int) :=
  mapOrNone pyInt (splitOnChar ',' s)

/-- The descending-id order used by `order_by('-id')`. -/
def recipeGE (a b : Recipe) : Prop := b.id ≤ a.id

instance : DecidableRel recipeGE := fun a b => inferInstanceAs (Decidable (b.id ≤ a.id))

instance : IsTotal Recipe recipeGE := ⟨fun a b => Nat.le_total b.id a.id⟩

instance : IsTrans Recipe recipeGE :=
  ⟨fun _ _ _ h1 h2 => Nat.le_trans h2 h1⟩

/-- Lexicographic comparison of strings, the order behind `order_by('name')`. -/
def strLE : PyStr → PyStr → Bool
  | [], _ => true
  | _ :: _, [] => false
  | a :: as, b :: bs => if a = b then strLE as bs else decide (a < b)

/-- Ascending-name order on tags (`order_by('name')`). -/
def tagNameLE (a b : Tag) : Prop := strLE a.name b.name = true

instance : DecidableRel tagNameLE := fun a b => inferInstanceAs (Decidable (_ = true))

/-- Ascending-name order on ingredients (`order_by('name')`). -/
def ingredientNameLE (a b : Ingredient) : Prop := strLE a.name b.name = true

instance : DecidableRel ingredientNameLE := fun a b => inferInstanceAs (Decidable (_ = true))

/-- The `queryset.filter(tags__id__in=ids)`: recipes having at least one
related tag whose id is in `ids`. -/
def filterByTags (ids : List Int) (rs : List Recipe) : List Recipe :=
  rs.filter (fun r => r.tags.any (fun t => ids.contains (t : Int)))

/-- The `queryset.filter(ingredients__id__in=ids)`: recipes having at least one
related ingredient whose id is in `ids`. -/
def filterByIngredients (ids : List Int) (rs : List Recipe) : List Recipe :=
  rs.filter (fun r => r.ingredients.any (fun i => ids.contains (i : Int)))

/-- The `if tags:` / `if ingredients:` guard of `RecipeViewSet.get_queryset`:
an absent or empty parameter leaves the queryset alone; a non-empty one is
parsed by `_parameters_to_list` (propagating its exception) and applied. -/
def optFilter (p : Option PyStr) (f : List Int → List Recipe → List Recipe)
    (rs : List Recipe) : Option (List Recipe) :=
  match p with
  | none => some rs
  | some s =>
    if s = [] then some rs
    else (parametersToList s).map (fun ids => f ids rs)

/-- The parse outcome of one optional comma-separated-ids parameter:
`some none` when the parameter is absent or empty (no filtering),
`some (some ids)` when it parses, `none` when `int(...)` raises. -/
def parsedParam (p : Option PyStr) : Option (Option (List Int)) :=
  match p with
  | none => some none
  | some s => if s = [] then some none else (parametersToList s).map some

/-- The `RecipeViewSet.get_queryset`: optional tag and ingredient id filters,
then `filter(user=request.user).order_by('-id').distinct()`.  `none` models
an uncaught exception from `int(...)`. -/
def recipeGetQueryset (db : DB) (u : Nat) (tagsP ingsP : Option PyStr) :
    Option (List Recipe) :=
  (optFilter tagsP filterByTags db.recipes).bind (fun rs1 =>
    (optFilter ingsP filterByIngredients rs1).map (fun rs2 =>
      (List.insertionSort recipeGE
        (rs2.filter (fun r => decide (r.user = u)))).dedup))

/-- The `BaseRecipeAttrViewSet.get_queryset` for tags:
`bool(int(query_params.get('assigned_only', 0)))`, then the
`recipe__isnull=False` filter, then
`filter(user=request.user).order_by('name').distinct()`. -/
def tagGetQueryset (db : DB) (u : Nat) (assignedP : Option PyStr) :
    Option (List Tag) :=
  (match assignedP with | none => some (0 : Int) | some s => pyInt s).map
    (fun (n : Int) =>
      let qs := if n ≠ 0 then
          db.tags.filter
            (fun (t : Tag) => db.recipes.any (fun r => r.tags.contains t.id))
        else db.tags
      (List.insertionSort tagNameLE
        (qs.filter (fun t => decide (t.user = u)))).dedup)

/-- The `BaseRecipeAttrViewSet.get_queryset` for ingredients. -/
def ingredientGetQueryset (db : DB) (u : Nat) (assignedP : Option PyStr) :
    Option (List Ingredient) :=
  (match assignedP with | none => some (0 : Int) | some s => pyInt s).map
    (fun (n : Int) =>
      let qs := if n ≠ 0 then
          db.ingredients.filter
            (fun (i : Ingredient) =>
              db.recipes.any (fun r => r.ingredients.contains i.id))
        else db.ingredients
      (List.insertionSort ingredientNameLE
        (qs.filter (fun i => decide (i.user = u)))).dedup)

/-- A validated tag descriptor (`TagSerializer`: writable field `name`). -/
structure TagDescriptor where
  name : PyStr
deriving DecidableEq

/-- A raw tag descriptor as sent by the client; `name` may be missing. -/
structure RawTagDescriptor where
  name : Option PyStr
deriving DecidableEq

/-- A validated ingredient descriptor (`IngredientSerializer`: writable
fields `name` and `quantity`). -/
structure IngredientDescriptor where
  name : PyStr
  quantity : Int
deriving DecidableEq

/-- A raw ingredient descriptor as sent by the client. -/
structure RawIngredientDescriptor where
  name : Option PyStr
  quantity : Option Int
deriving DecidableEq

/-- The raw body of a recipe create/update request.  `user` models a
client-supplied owner field: it is not among the serializer's declared
fields, so validation drops it. -/
structure RawRecipePayload where
  title : Option PyStr
  time_minutes : Option Int
  price : Option Int
  link : Option PyStr
  description : Option PyStr
  image : Option (Option PyStr)
  tags : Option (List RawTagDescriptor)
  ingredients : Option (List RawIngredientDescriptor)
  user : Option Nat
deriving DecidableEq

/-- The `serializer.validated_data` for `RecipeDetailSerializer`: only the
declared writable fields survive (no `id`, no `user`). -/
structure RecipeValidatedData where
  title : Option PyStr
  time_minutes : Option Int
  price : Option Int
  link : Option PyStr
  description : Option PyStr
  image : Option (Option PyStr)
  tags : Option (List TagDescriptor)
  ingredients : Option (List IngredientDescriptor)
deriving DecidableEq

/-- Validation of one tag descriptor: `name` is required. -/
def validateTagDescriptor (d : RawTagDescriptor) : Option TagDescriptor :=
  d.name.map (fun n => ⟨n⟩)

/-- Validation of one ingredient descriptor: `name` and `quantity` are
required. -/
def validateIngredientDescriptor (d : RawIngredientDescriptor) :
    Option IngredientDescriptor :=
  match d.name, d.quantity with
  | some n, some q => some ⟨n, q⟩
  | _, _ => none

/-- Validate an optional descriptor list: an absent field stays absent; a
present list must validate element-wise, else the whole payload is invalid. -/
def validateOptList (f : α → Option β) (o : Option (List α)) :
    Option (Option (List β)) :=
  match o with
  | none => some none
  | some l => (mapOrNone f l).map some

/-- Serializer validation of a partial-update (PATCH) payload: every field
optional, nested descriptors validated, the undeclared `user` key dropped. -/
def validateRecipePayload (p : RawRecipePayload) : Option RecipeValidatedData :=
  match validateOptList validateTagDescriptor p.tags,
      validateOptList validateIngredientDescriptor p.ingredients with
  | some ts, some ings =>
    some { title := p.title, time_minutes := p.time_minutes, price := p.price,
           link := p.link, description := p.description, image := p.image,
           tags := ts, ingredients := ings }
  | _, _ => none

/-- Serializer validation of a create (POST) or full-update (PUT) payload:
as `validateRecipePayload`, plus the model-required fields `title`,
`time_minutes` and `price` must be present. -/
def validateRecipeFull (p : RawRecipePayload) : Option RecipeValidatedData :=
  match validateRecipePayload p with
  | none => none
  | some vd =>
    if vd.title.isSome ∧ vd.time_minutes.isSome ∧ vd.price.isSome then some vd
    else none

/-- The predicate of `Tag.objects.get_or_create(user=user, name=name)`. -/
def tagKey (u : Nat) (n : PyStr) (t : Tag) : Bool :=
  decide (t.user = u) && t.name == n

/-- The predicate of
`Ingredient.objects.get_or_create(user=user, name=name, quantity=quantity)`. -/
def ingredientKey (u : Nat) (n : PyStr) (q : Int) (i : Ingredient) : Bool :=
  decide (i.user = u) && i.name == n && decide (i.quantity = q)

/-- The id of the first row of a tag table matching `(user, name)`, if
any. -/
def resolveTagId (tags : List Tag) (u : Nat) (n : PyStr) : Option Nat :=
  (tags.find? (tagKey u n)).map Tag.id

/-- The id of the first row of an ingredient table matching
`(user, name, quantity)`, if any. -/
def resolveIngredientId (ingredients : List Ingredient) (u : Nat) (n : PyStr)
    (q : Int) : Option Nat :=
  (ingredients.find? (ingredientKey u n q)).map Ingredient.id

/-- The `Tag.objects.get_or_create(user=user, **tag)`: return the matching row's
id, or insert a fresh row owned by `u`. -/
def getOrCreateTag (db : DB) (u : Nat) (d : TagDescriptor) : DB × Nat :=
  match db.tags.find? (tagKey u d.name) with
  | some t => (db, t.id)
  | none =>
    ({ db with
       tags := db.tags ++ [⟨db.nextTagId, u, d.name⟩],
       nextTagId := db.nextTagId + 1 }, db.nextTagId)

/-- The `Ingredient.objects.get_or_create(user=user, **ingredient)`. -/
def getOrCreateIngredient (db : DB) (u : Nat) (d : IngredientDescriptor) :
    DB × Nat :=
  match db.ingredients.find? (ingredientKey u d.name d.quantity) with
  | some i => (db, i.id)
  | none =>
    ({ db with
       ingredients := db.ingredients ++ [⟨db.nextIngredientId, u, d.name, d.quantity⟩],
       nextIngredientId := db.nextIngredientId + 1 }, db.nextIngredientId)

/-- The `recipe.tags.add(tag_object)`: idempotent attachment. -/
def attachTag (r : Recipe) (tid : Nat) : Recipe :=
  if tid ∈ r.tags then r else { r with tags := r.tags ++ [tid] }

/-- The `recipe.ingredients.add(ingredient_object)`: idempotent attachment. -/
def attachIngredient (r : Recipe) (iid : Nat) : Recipe :=
  if iid ∈ r.ingredients then r else { r with ingredients := r.ingredients ++ [iid] }

/-- The `RecipeDetailSerializer._add_tags`: get-or-create and attach each
descriptor in order. -/
def addTags (u : Nat) (ds : List TagDescriptor) (db : DB) (r : Recipe) :
    DB × Recipe :=
  match ds with
  | [] => (db, r)
  | d :: rest =>
    let s := getOrCreateTag db u d
    addTags u rest s.1 (attachTag r s.2)

/-- The `RecipeDetailSerializer._add_ingredients`. -/
def addIngredients (u : Nat) (ds : List IngredientDescriptor) (db : DB)
    (r : Recipe) : DB × Recipe :=
  match ds with
  | [] => (db, r)
  | d :: rest =>
    let s := getOrCreateIngredient db u d
    addIngredients u rest s.1 (attachIngredient r s.2)

/-- The `setattr` loop of `RecipeDetailSerializer.update` over the remaining
validated fields (`tags` and `ingredients` have been popped). -/
def applyAttrs (r : Recipe) (vd : RecipeValidatedData) : Recipe :=
  { r with
    title := vd.title.getD r.title,
    time_minutes := vd.time_minutes.getD r.time_minutes,
    price := vd.price.getD r.price,
    link := vd.link.getD r.link,
    description := vd.description.getD r.description,
    image := vd.image.getD r.image }

/-- The `instance.save()`: write the recipe row (and its embedded relation
lists) back into the table. -/
def saveRecipe (db : DB) (r : Recipe) : DB :=
  { db with recipes := db.recipes.map (fun x => if x.id = r.id then r else x) }

/-- The `RecipeDetailSerializer.update`: pop `tags` and `ingredients` (default
`None`); when present, clear the relation and re-add the new set; then
`setattr` the remaining fields and save. -/
def serializerUpdate (u : Nat) (r : Recipe) (vd : RecipeValidatedData)
    (db : DB) : DB × Recipe :=
  let s1 := match vd.tags with
    | none => (db, r)
    | some ds => addTags u ds db { r with tags := [] }
  let s2 := match vd.ingredients with
    | none => s1
    | some ds => addIngredients u ds s1.1 { s1.2 with ingredients := [] }
  let r3 := applyAttrs s2.2 vd
  (saveRecipe s2.1 r3, r3)

/-- The `RecipeDetailSerializer.create` with `perform_create` passing
`user=request.user`: pop `tags`/`ingredients` (default `[]`), create the
recipe row owned by the acting user, then add the descriptor sets. -/
def serializerCreate (u : Nat) (vd : RecipeValidatedData) (db : DB) :
    DB × Recipe :=
  let r0 : Recipe :=
    { id := db.nextRecipeId,
      user := u,
      title := vd.title.getD [],
      time_minutes := vd.time_minutes.getD 0,
      price := vd.price.getD 0,
      description := vd.description.getD [],
      link := vd.link.getD [],
      image := vd.image.getD none,
      tags := [],
      ingredients := [] }
  let db0 :=
    { db with
      recipes := db.recipes ++ [r0],
      nextRecipeId := db.nextRecipeId + 1 }
  let s1 := addTags u (vd.tags.getD []) db0 r0
  let s2 := addIngredients u (vd.ingredients.getD []) s1.1 s1.2
  (saveRecipe s2.1 s2.2, s2.2)

/-- HTTP outcome of an endpoint call; `serverError` models an uncaught
exception (HTTP 500), as opposed to a `badRequest` validation response. -/
inductive ApiResult (α : Type)
  | ok (x : α)
  | created (x : α)
  | noContent
  | badRequest
  | notFound
  | serverError
deriving DecidableEq

/-- DRF `get_object` for the recipe detail routes: look the pk up inside
`get_queryset()` (user-scoped; no list query parameters on detail routes). -/
def recipeGetObject (db : DB) (u : Nat) (pk : Nat) : Option Recipe :=
  (recipeGetQueryset db u none none).bind
    (fun rs => rs.find? (fun r => decide (r.id = pk)))

/-- The `get_object` for the tag detail routes. -/
def tagGetObject (db : DB) (u : Nat) (pk : Nat) : Option Tag :=
  (tagGetQueryset db u none).bind
    (fun ts => ts.find? (fun t => decide (t.id = pk)))

/-- The `get_object` for the ingredient detail routes. -/
def ingredientGetObject (db : DB) (u : Nat) (pk : Nat) : Option Ingredient :=
  (ingredientGetQueryset db u none).bind
    (fun l => l.find? (fun i => decide (i.id = pk)))

/-- The `GET /recipe/recipes` for user `u`. -/
def recipeListEndpoint (db : DB) (u : Nat) (tagsP ingsP : Option PyStr) :
    DB × ApiResult (List Recipe) :=
  match recipeGetQueryset db u tagsP ingsP with
  | none => (db, .serverError)
  | some rs => (db, .ok rs)

/-- The `GET /recipe/tags` for user `u`. -/
def tagListEndpoint (db : DB) (u : Nat) (assignedP : Option PyStr) :
    DB × ApiResult (List Tag) :=
  match tagGetQueryset db u assignedP with
  | none => (db, .serverError)
  | some ts => (db, .ok ts)

/-- The `GET /recipe/ingredients` for user `u`. -/
def ingredientListEndpoint (db : DB) (u : Nat) (assignedP : Option PyStr) :
    DB × ApiResult (List Ingredient) :=
  match ingredientGetQueryset db u assignedP with
  | none => (db, .serverError)
  | some l => (db, .ok l)

/-- The `POST /recipe/recipes`: validate, then create owned by `u`. -/
def recipeCreateEndpoint (db : DB) (u : Nat) (p : RawRecipePayload) :
    DB × ApiResult Recipe :=
  match validateRecipeFull p with
  | none => (db, .badRequest)
  | some vd =>
    let s := serializerCreate u vd db
    (s.1, .created s.2)

/-- The `PATCH /recipe/recipes/{pk}`: owner-scoped lookup, partial validation,
serializer update. -/
def recipeUpdateEndpoint (db : DB) (u : Nat) (pk : Nat)
    (p : RawRecipePayload) : DB × ApiResult Recipe :=
  match recipeGetObject db u pk with
  | none => (db, .notFound)
  | some r =>
    match validateRecipePayload p with
    | none => (db, .badRequest)
    | some vd =>
      let s := serializerUpdate u r vd db
      (s.1, .ok s.2)

/-- The `PUT /recipe/recipes/{pk}`: as PATCH but with required fields present. -/
def recipePutEndpoint (db : DB) (u : Nat) (pk : Nat)
    (p : RawRecipePayload) : DB × ApiResult Recipe :=
  match recipeGetObject db u pk with
  | none => (db, .notFound)
  | some r =>
    match validateRecipeFull p with
    | none => (db, .badRequest)
    | some vd =>
      let s := serializerUpdate u r vd db
      (s.1, .ok s.2)

/-- The `DELETE /recipe/recipes/{pk}`: owner-scoped lookup, then row removal. -/
def recipeDeleteEndpoint (db : DB) (u : Nat) (pk : Nat) :
    DB × ApiResult Recipe :=
  match recipeGetObject db u pk with
  | none => (db, .notFound)
  | some r =>
    ({ db with recipes := db.recipes.filter (fun x => decide (x.id ≠ r.id)) },
     .noContent)

/-- The `PATCH /recipe/tags/{pk}`: owner-scoped lookup, then rename and save. -/
def tagUpdateEndpoint (db : DB) (u : Nat) (pk : Nat) (newName : Option PyStr) :
    DB × ApiResult Tag :=
  match tagGetObject db u pk with
  | none => (db, .notFound)
  | some t =>
    let t2 := { t with name := newName.getD t.name }
    ({ db with tags := db.tags.map (fun x => if x.id = t2.id then t2 else x) },
     .ok t2)

/-- The `DELETE /recipe/tags/{pk}`: owner-scoped lookup, row removal and
join-table cleanup. -/
def tagDeleteEndpoint (db : DB) (u : Nat) (pk : Nat) : DB × ApiResult Tag :=
  match tagGetObject db u pk with
  | none => (db, .notFound)
  | some t =>
    ({ db with
       tags := db.tags.filter (fun x => decide (x.id ≠ t.id)),
       recipes := db.recipes.map
         (fun r => { r with tags := r.tags.filter (fun i => decide (i ≠ t.id)) }) },
     .noContent)

/-- The `PATCH /recipe/ingredients/{pk}`. -/
def ingredientUpdateEndpoint (db : DB) (u : Nat) (pk : Nat)
    (newName : Option PyStr) (newQuantity : Option Int) :
    DB × ApiResult Ingredient :=
  match ingredientGetObject db u pk with
  | none => (db, .notFound)
  | some i =>
    let i2 :=
      { i with
        name := newName.getD i.name,
        quantity := newQuantity.getD i.quantity }
    ({ db with ingredients :=
        db.ingredients.map (fun x => if x.id = i2.id then i2 else x) },
     .ok i2)

/-- The `DELETE /recipe/ingredients/{pk}`. -/
def ingredientDeleteEndpoint (db : DB) (u : Nat) (pk : Nat) :
    DB × ApiResult Ingredient :=
  match ingredientGetObject db u pk with
  | none => (db, .notFound)
  | some i =>
    ({ db with
       ingredients := db.ingredients.filter (fun x => decide (x.id ≠ i.id)),
       recipes := db.recipes.map
         (fun r => { r with
            ingredients := r.ingredients.filter (fun j => decide (j ≠ i.id)) }) },
     .noContent)

/-- Database well-formedness: distinct primary keys in each table. -/
def DB.wf (db : DB) : Prop :=
  (db.users.map User.id).Nodup ∧ (db.recipes.map Recipe.id).Nodup ∧
  (db.tags.map Tag.id).Nodup ∧ (db.ingredients.map Ingredient.id).Nodup

instance (db : DB) : Decidable db.wf := by unfold DB.wf; infer_instance

section QuerysetLemmas

/-- One failing element makes the whole traversal fail. -/
theorem mapOrNone_eq_none {f : α → Option β} {l : List α} {a : α}
    (ha : a ∈ l) (hf : f a = none) : mapOrNone f l = none := by
  induction l with
  | nil => cases ha
  | cons x rest ih =>
    rcases List.mem_cons.mp ha with rfl | hmem
    · simp [mapOrNone, hf]
    · simp only [mapOrNone, ih hmem]
      cases f x <;> rfl

/-- A successful traversal means every element succeeded. -/
theorem mapOrNone_eq_some {f : α → Option β} {l : List α} {bs : List β}
    (h : mapOrNone f l = some bs) : ∀ a ∈ l, (f a).isSome := by
  induction l generalizing bs with
  | nil => intro a ha; cases ha
  | cons x rest ih =>
    intro a ha
    simp only [mapOrNone] at h
    rcases hx : f x with _ | b <;> rw [hx] at h
    · exact absurd h (by simp)
    · rcases hr : mapOrNone f rest with _ | bs2 <;> rw [hr] at h
      · exact absurd h (by simp)
      · rcases List.mem_cons.mp ha with rfl | hmem
        · simp [hx]
        · exact ih hr a hmem

/-- Members of an optionally-filtered recipe queryset come from the input
queryset, provided the filter itself only selects. -/
theorem optFilter_subset {p : Option PyStr}
    {f : List Int → List Recipe → List Recipe}
    (hf : ∀ ids rs, ∀ x ∈ f ids rs, x ∈ rs)
    {rs0 rs1 : List Recipe} (h : optFilter p f rs0 = some rs1) :
    ∀ x ∈ rs1, x ∈ rs0 := by
  unfold optFilter at h
  rcases p with _ | s
  · simp only [Option.some.injEq] at h
    subst h; exact fun x hx => hx
  · by_cases hs : s = []
    · simp only [hs, if_true] at h
      simp only [Option.some.injEq] at h
      subst h; exact fun x hx => hx
    · simp only [hs, if_false] at h
      obtain ⟨ids, _, hfd⟩ := Option.map_eq_some'.mp h
      subst hfd; exact hf ids rs0

theorem filterByTags_subset (ids : List Int) (rs : List Recipe) :
    ∀ x ∈ filterByTags ids rs, x ∈ rs :=
  fun _ hx => (List.mem_filter.mp hx).1

theorem filterByIngredients_subset (ids : List Int) (rs : List Recipe) :
    ∀ x ∈ filterByIngredients ids rs, x ∈ rs :=
  fun _ hx => (List.mem_filter.mp hx).1

/-- Rows of a recipe list result are rows of the table owned by the
requesting user. -/
theorem mem_of_recipeGetQueryset {db : DB} {u : Nat} {tp ip : Option PyStr}
    {rs : List Recipe} (h : recipeGetQueryset db u tp ip = some rs)
    {x : Recipe} (hx : x ∈ rs) : x ∈ db.recipes ∧ x.user = u := by
  unfold recipeGetQueryset at h
  obtain ⟨rs1, h1, hmap⟩ := Option.bind_eq_some.mp h
  obtain ⟨rs2, hopt, hdef⟩ := Option.map_eq_some'.mp hmap
  subst hdef
  rw [List.mem_dedup, (List.perm_insertionSort recipeGE _).mem_iff,
    List.mem_filter] at hx
  refine ⟨?_, of_decide_eq_true hx.2⟩
  exact optFilter_subset filterByTags_subset h1 x
    (optFilter_subset filterByIngredients_subset hopt x hx.1)

/-- Rows of a tag list result are rows of the table owned by the requesting
user. -/
theorem mem_of_tagGetQueryset {db : DB} {u : Nat} {ap : Option PyStr}
    {ts : List Tag} (h : tagGetQueryset db u ap = some ts)
    {x : Tag} (hx : x ∈ ts) : x ∈ db.tags ∧ x.user = u := by
  unfold tagGetQueryset at h
  obtain ⟨n, _, hts⟩ := Option.map_eq_some'.mp h
  subst hts
  simp only at hx
  rw [List.mem_dedup, (List.perm_insertionSort tagNameLE _).mem_iff,
    List.mem_filter] at hx
  refine ⟨?_, of_decide_eq_true hx.2⟩
  have hx1 := hx.1
  by_cases hz : n ≠ 0
  · rw [if_pos hz] at hx1
    exact (List.mem_filter.mp hx1).1
  · rw [if_neg hz] at hx1
    exact hx1

/-- Rows of an ingredient list result are rows of the table owned by the
requesting user. -/
theorem mem_of_ingredientGetQueryset {db : DB} {u : Nat} {ap : Option PyStr}
    {l : List Ingredient} (h : ingredientGetQueryset db u ap = some l)
    {x : Ingredient} (hx : x ∈ l) : x ∈ db.ingredients ∧ x.user = u := by
  unfold ingredientGetQueryset at h
  obtain ⟨n, _, hts⟩ := Option.map_eq_some'.mp h
  subst hts
  simp only at hx
  rw [List.mem_dedup, (List.perm_insertionSort ingredientNameLE _).mem_iff,
    List.mem_filter] at hx
  refine ⟨?_, of_decide_eq_true hx.2⟩
  have hx1 := hx.1
  by_cases hz : n ≠ 0
  · rw [if_pos hz] at hx1
    exact (List.mem_filter.mp hx1).1
  · rw [if_neg hz] at hx1
    exact hx1

end QuerysetLemmas

/-! Concrete sample data used by the witness theorems. -/

/-- The empty database. -/
def dbEmpty : DB := ⟨[], [], [], [], 1, 1, 1, 1⟩

/-- No extra keyword arguments. -/
def extra0 : CreateUserExtra := ⟨[], false, false⟩

def userA : User := ⟨1, ('a' :: '@' :: "x.com".toList), [], [], true, false, false⟩

def userB : User := ⟨2, ('b' :: '@' :: "x.com".toList), [], [], true, false, false⟩

def tagA : Tag := ⟨1, 1, "vegan".toList⟩

def tagB : Tag := ⟨2, 2, "meat".toList⟩

def ingA : Ingredient := ⟨1, 1, "salt".toList, 1⟩

def ingB : Ingredient := ⟨2, 2, "sugar".toList, 2⟩

def recA : Recipe := ⟨1, 1, "pie".toList, 10, 5, [], [], none, [1], [1]⟩

def recB : Recipe := ⟨2, 2, "stew".toList, 20, 7, [], [], none, [2], [2]⟩

/-- A two-user database with one recipe, tag and ingredient per user. -/
def dbAB : DB := ⟨[userA, userB], [recA, recB], [tagA, tagB], [ingA, ingB], 3, 3, 3, 3⟩

/-- An update/create body with no fields at all. -/
def emptyPayload : RawRecipePayload :=
  ⟨none, none, none, none, none, none, none, none, none⟩

/-! ## Claims about the user store -/

/-- C7: for every email of the form `local@DOMAIN` (one `'@'`),
`normalize_email` removes the spaces of the local part and removes the
spaces of and lower-cases the domain. -/
theorem c7_normalize_spec (lp dom : PyStr) (h1 : '@' ∉ lp) (h2 : '@' ∉ dom) :
    normalize_email (lp ++ '@' :: dom) =
      some (removeSpaces lp ++ '@' :: lowerStr (removeSpaces dom)) := by
  unfold normalize_email
  rw [splitOnChar_append dom h1, splitOnChar_of_not_mem h2]

/-- Witness for C7: the spec's literal example
`" UseR9@ EXAMPLE. CoM  "` normalizes to `"UseR9@example.com"`,
local-part case preserved. -/
theorem c7_witness :
    normalize_email (String.toList " UseR9@ EXAMPLE. CoM  ") =
      some (String.toList "UseR9@example.com") := by
  have h := c7_normalize_spec (String.toList " UseR9")
    (String.toList " EXAMPLE. CoM  ") (by decide) (by decide)
  rw [show String.toList " UseR9@ EXAMPLE. CoM  " =
      String.toList " UseR9" ++ '@' :: String.toList " EXAMPLE. CoM  " from by decide]
  exact h.trans (by decide)

/-- C6 counterexample: an email whose local part consists only of
whitespace (empty after whitespace removal) is NOT rejected by
`create_user` — the emptiness check runs on the raw local part, before
whitespace removal — and a user row is persisted. -/
theorem c6_counterexample :
    removeSpaces (localPart (String.toList " @example.com")) = [] ∧
    (create_user dbEmpty (String.toList " @example.com") [] extra0).2 ≠
      CreateUserResult.valueError ∧
    (create_user dbEmpty (String.toList " @example.com") [] extra0).1.users.length = 1 := by
  decide

/-- C6 amended: `create_user` fails with a `ValueError` exactly when the
email is empty, or the local part before the first `'@'` is empty as
written (before whitespace removal), or the email does not contain exactly
one `'@'`; on failure no user row is persisted.  In particular a
whitespace-only local part is accepted. -/
theorem c6_amended (db : DB) (email pw : PyStr) (extra : CreateUserExtra) :
    ((create_user db email pw extra).2 = CreateUserResult.valueError ↔
      (email = [] ∨ localPart email = [] ∨ email.count '@' ≠ 1)) ∧
    ((create_user db email pw extra).2 = CreateUserResult.valueError →
      (create_user db email pw extra).1 = db) := by
  unfold create_user
  by_cases hg : email = [] ∨ localPart email = []
  · rw [if_pos hg]
    exact ⟨⟨fun _ => Or.elim hg (fun h => Or.inl h) (fun h => Or.inr (Or.inl h)),
      fun _ => rfl⟩, fun _ => rfl⟩
  · rw [if_neg hg]
    rcases hne : normalize_email email with _ | e
    · have hc := (normalize_email_eq_none_iff email).mp hne
      exact ⟨⟨fun _ => Or.inr (Or.inr hc), fun _ => rfl⟩, fun _ => rfl⟩
    · have hc : email.count '@' = 1 := by
        by_contra hcc
        rw [(normalize_email_eq_none_iff email).mpr hcc] at hne
        cases hne
      constructor
      · constructor
        · intro hfalse; cases hfalse
        · intro hor
          rcases hor with h | h | h
          · exact absurd (Or.inl h) hg
          · exact absurd (Or.inr h) hg
          · exact absurd hc h
      · intro hfalse; cases hfalse

/-- C9: an email with a non-empty prefix before the first `'@'` but not
exactly one `'@'` passes the explicit emptiness check, but the two-way
unpacking in `normalize_email` raises; `create_user` fails and the
database is unchanged. -/
theorem c9_malformed_email_raises (db : DB) (email pw : PyStr)
    (extra : CreateUserExtra) (hcount : email.count '@' ≠ 1)
    (hlp : localPart email ≠ []) :
    normalize_email email = none ∧
    create_user db email pw extra = (db, CreateUserResult.valueError) := by
  have hnone := (normalize_email_eq_none_iff email).mpr hcount
  refine ⟨hnone, ?_⟩
  unfold create_user
  have hne : ¬(email = [] ∨ localPart email = []) := by
    rintro (rfl | h)
    · exact hlp localPart_nil
    · exact hlp h
  rw [if_neg hne, hnone]

/-- Witness for C9: the at-sign-free email `"ab"` raises and persists
nothing. -/
theorem c9_witness :
    ((String.toList "ab").count '@' ≠ 1 ∧ localPart (String.toList "ab") ≠ []) ∧
    (normalize_email (String.toList "ab") = none ∧
      create_user dbEmpty (String.toList "ab") [] extra0 =
        (dbEmpty, CreateUserResult.valueError)) :=
  ⟨⟨by decide, by decide⟩,
   c9_malformed_email_raises dbEmpty (String.toList "ab") [] extra0
     (by decide) (by decide)⟩

/-! ## Claims about ownership scoping -/

/-- C1: a list result authenticated as `A` contains only rows owned by
`A`, never a row of a different user `B`, whatever the query parameters. -/
theorem c1_listing_owner_scoped (db : DB) (A B : Nat)
    (tp ip ap1 ap2 : Option PyStr) (rs : List Recipe) (ts : List Tag)
    (ings : List Ingredient) (hAB : A ≠ B)
    (hr : recipeGetQueryset db A tp ip = some rs)
    (ht : tagGetQueryset db A ap1 = some ts)
    (hi : ingredientGetQueryset db A ap2 = some ings) :
    (∀ r ∈ rs, r.user = A ∧ r.user ≠ B) ∧
    (∀ t ∈ ts, t.user = A ∧ t.user ≠ B) ∧
    (∀ i ∈ ings, i.user = A ∧ i.user ≠ B) := by
  refine ⟨fun r hm => ?_, fun t hm => ?_, fun i hm => ?_⟩
  · have h := mem_of_recipeGetQueryset hr hm
    exact ⟨h.2, h.2 ▸ hAB⟩
  · have h := mem_of_tagGetQueryset ht hm
    exact ⟨h.2, h.2 ▸ hAB⟩
  · have h := mem_of_ingredientGetQueryset hi hm
    exact ⟨h.2, h.2 ▸ hAB⟩

/-- Witness for C1 on the two-user sample database. -/
theorem c1_witness :
    ((1 : Nat) ≠ 2 ∧
     recipeGetQueryset dbAB 1 none none = some [recA] ∧
     tagGetQueryset dbAB 1 none = some [tagA] ∧
     ingredientGetQueryset dbAB 1 none = some [ingA]) ∧
    ((∀ r ∈ [recA], r.user = 1 ∧ r.user ≠ 2) ∧
     (∀ t ∈ [tagA], t.user = 1 ∧ t.user ≠ 2) ∧
     (∀ i ∈ [ingA], i.user = 1 ∧ i.user ≠ 2)) :=
  ⟨⟨by decide, by decide, by decide, by decide⟩,
   c1_listing_owner_scoped dbAB 1 2 none none none none [recA] [tagA] [ingA]
     (by decide) (by decide) (by decide) (by decide)⟩

/-- A cross-owner recipe pk is invisible to `get_object`. -/
theorem recipeGetObject_cross_owner {db : DB} {u : Nat} {r : Recipe}
    (hwf : (db.recipes.map Recipe.id).Nodup) (hr : r ∈ db.recipes)
    (hru : r.user ≠ u) : recipeGetObject db u r.id = none := by
  unfold recipeGetObject
  rcases hq : recipeGetQueryset db u none none with _ | rs
  · rfl
  · rw [Option.some_bind, List.find?_eq_none]
    intro x hxm hpk
    have hx := mem_of_recipeGetQueryset hq hxm
    have hxr : x = r :=
      List.inj_on_of_nodup_map hwf hx.1 hr (of_decide_eq_true hpk)
    exact hru (hxr ▸ hx.2)

/-- A cross-owner tag pk is invisible to `get_object`. -/
theorem tagGetObject_cross_owner {db : DB} {u : Nat} {t : Tag}
    (hwf : (db.tags.map Tag.id).Nodup) (ht : t ∈ db.tags)
    (htu : t.user ≠ u) : tagGetObject db u t.id = none := by
  unfold tagGetObject
  rcases hq : tagGetQueryset db u none with _ | ts
  · rfl
  · rw [Option.some_bind, List.find?_eq_none]
    intro x hxm hpk
    have hx := mem_of_tagGetQueryset hq hxm
    have hxr : x = t :=
      List.inj_on_of_nodup_map hwf hx.1 ht (of_decide_eq_true hpk)
    exact htu (hxr ▸ hx.2)

/-- A cross-owner ingredient pk is invisible to `get_object`. -/
theorem ingredientGetObject_cross_owner {db : DB} {u : Nat} {i : Ingredient}
    (hwf : (db.ingredients.map Ingredient.id).Nodup) (hi : i ∈ db.ingredients)
    (hiu : i.user ≠ u) : ingredientGetObject db u i.id = none := by
  unfold ingredientGetObject
  rcases hq : ingredientGetQueryset db u none with _ | l
  · rfl
  · rw [Option.some_bind, List.find?_eq_none]
    intro x hxm hpk
    have hx := mem_of_ingredientGetQueryset hq hxm
    have hxr : x = i :=
      List.inj_on_of_nodup_map hwf hx.1 hi (of_decide_eq_true hpk)
    exact hiu (hxr ▸ hx.2)

/-- C2: every mutating detail request (update or delete) against a recipe,
tag or ingredient row owned by a different user answers not-found and
leaves the database — hence the targeted row and its relation sets —
unchanged. -/
theorem c2_cross_owner_not_found (db : DB) (u : Nat) (r : Recipe) (t : Tag)
    (i : Ingredient) (p : RawRecipePayload) (tn : Option PyStr)
    (inm : Option PyStr) (iq : Option Int) (hwf : db.wf)
    (hr : r ∈ db.recipes) (hru : r.user ≠ u)
    (ht : t ∈ db.tags) (htu : t.user ≠ u)
    (hi : i ∈ db.ingredients) (hiu : i.user ≠ u) :
    recipeUpdateEndpoint db u r.id p = (db, ApiResult.notFound) ∧
    recipePutEndpoint db u r.id p = (db, ApiResult.notFound) ∧
    recipeDeleteEndpoint db u r.id = (db, ApiResult.notFound) ∧
    tagUpdateEndpoint db u t.id tn = (db, ApiResult.notFound) ∧
    tagDeleteEndpoint db u t.id = (db, ApiResult.notFound) ∧
    ingredientUpdateEndpoint db u i.id inm iq = (db, ApiResult.notFound) ∧
    ingredientDeleteEndpoint db u i.id = (db, ApiResult.notFound) := by
  have hro := recipeGetObject_cross_owner hwf.2.1 hr hru
  have hto := tagGetObject_cross_owner hwf.2.2.1 ht htu
  have hio := ingredientGetObject_cross_owner hwf.2.2.2 hi hiu
  refine ⟨?_, ?_, ?_, ?_, ?_, ?_, ?_⟩
  · simp only [recipeUpdateEndpoint, hro]
  · simp only [recipePutEndpoint, hro]
  · simp only [recipeDeleteEndpoint, hro]
  · simp only [tagUpdateEndpoint, hto]
  · simp only [tagDeleteEndpoint, hto]
  · simp only [ingredientUpdateEndpoint, hio]
  · simp only [ingredientDeleteEndpoint, hio]

/-- Witness for C2: user 1 cannot touch user 2's rows. -/
theorem c2_witness :
    (dbAB.wf ∧ recB ∈ dbAB.recipes ∧ recB.user ≠ 1 ∧ tagB ∈ dbAB.tags ∧
     tagB.user ≠ 1 ∧ ingB ∈ dbAB.ingredients ∧ ingB.user ≠ 1) ∧
    (recipeUpdateEndpoint dbAB 1 recB.id emptyPayload = (dbAB, ApiResult.notFound) ∧
     recipePutEndpoint dbAB 1 recB.id emptyPayload = (dbAB, ApiResult.notFound) ∧
     recipeDeleteEndpoint dbAB 1 recB.id = (dbAB, ApiResult.notFound) ∧
     tagUpdateEndpoint dbAB 1 tagB.id none = (dbAB, ApiResult.notFound) ∧
     tagDeleteEndpoint dbAB 1 tagB.id = (dbAB, ApiResult.notFound) ∧
     ingredientUpdateEndpoint dbAB 1 ingB.id none none = (dbAB, ApiResult.notFound) ∧
     ingredientDeleteEndpoint dbAB 1 ingB.id = (dbAB, ApiResult.notFound)) :=
  ⟨⟨by decide, by decide, by decide, by decide, by decide, by decide, by decide⟩,
   c2_cross_owner_not_found dbAB 1 recB tagB ingB emptyPayload none none none
     (by decide) (by decide) (by decide) (by decide) (by decide) (by decide)
     (by decide)⟩

/-! ## Claims about the list query parameters -/

/-- The queryset transformation determined by an already-parsed optional
id-list parameter. -/
def applyIdFilter (o : Option (List Int))
    (f : List Int → List Recipe → List Recipe) (rs : List Recipe) :
    List Recipe :=
  match o with
  | none => rs
  | some ids => f ids rs

/-- A parsed parameter determines the optional filter application. -/
theorem optFilter_of_parsedParam {p : Option PyStr} {o : Option (List Int)}
    (h : parsedParam p = some o) (f : List Int → List Recipe → List Recipe)
    (rs : List Recipe) :
    optFilter p f rs = some (applyIdFilter o f rs) := by
  rcases p with _ | s
  · simp only [parsedParam, Option.some.injEq] at h
    subst h; rfl
  · by_cases hs : s = []
    · simp only [parsedParam, if_pos hs, Option.some.injEq] at h
      subst h
      simp only [optFilter, if_pos hs, applyIdFilter]
    · simp only [parsedParam, if_neg hs] at h
      obtain ⟨ids, hids, ho⟩ := Option.map_eq_some'.mp h
      subst ho
      simp only [optFilter, if_neg hs, hids, Option.map_some', applyIdFilter]

/-- A failing token makes `_parameters_to_list` raise. -/
theorem parametersToList_eq_none {s tok : PyStr}
    (htok : tok ∈ splitOnChar ',' s) (hbad : pyInt tok = none) :
    parametersToList s = none :=
  mapOrNone_eq_none htok hbad

/-- A non-empty unparsable parameter makes the optional filter raise. -/
theorem optFilter_eq_none {s : PyStr} (hne : s ≠ [])
    (hpl : parametersToList s = none)
    (f : List Int → List Recipe → List Recipe) (rs : List Recipe) :
    optFilter (some s) f rs = none := by
  simp only [optFilter, if_neg hne, hpl]
  rfl

/-- C10: a non-integer token in the `tags` or `ingredients` parameter of
the recipe list, or a non-integer `assigned_only` value of the tag or
ingredient list, raises an uncaught exception (HTTP 500) rather than a
400 validation response. -/
theorem c10_unparsed_int_raises (db : DB) (u : Nat) (s s2 tok : PyStr)
    (tp : Option PyStr) (o : Option (List Int)) (hne : s ≠ [])
    (htok : tok ∈ splitOnChar ',' s) (hbad : pyInt tok = none)
    (htp : parsedParam tp = some o) (hbad2 : pyInt s2 = none) :
    (∀ ip, recipeListEndpoint db u (some s) ip = (db, ApiResult.serverError)) ∧
    recipeListEndpoint db u tp (some s) = (db, ApiResult.serverError) ∧
    tagListEndpoint db u (some s2) = (db, ApiResult.serverError) ∧
    ingredientListEndpoint db u (some s2) = (db, ApiResult.serverError) ∧
    (recipeListEndpoint db u (some s) none).2 ≠ ApiResult.badRequest := by
  have hpl := parametersToList_eq_none htok hbad
  have hfail := optFilter_eq_none hne hpl
  have hqs1 : ∀ ip, recipeGetQueryset db u (some s) ip = none := by
    intro ip
    unfold recipeGetQueryset
    rw [hfail filterByTags db.recipes]
    rfl
  refine ⟨?_, ?_, ?_, ?_, ?_⟩
  · intro ip
    simp only [recipeListEndpoint, hqs1 ip]
  · have hqs2 : recipeGetQueryset db u tp (some s) = none := by
      unfold recipeGetQueryset
      rw [optFilter_of_parsedParam htp filterByTags db.recipes,
        Option.some_bind, hfail filterByIngredients _]
      rfl
    simp only [recipeListEndpoint, hqs2]
  · simp only [tagListEndpoint, tagGetQueryset, hbad2]
    rfl
  · simp only [ingredientListEndpoint, ingredientGetQueryset, hbad2]
    rfl
  · simp only [recipeListEndpoint, hqs1 none]
    intro hx
    cases hx

/-- Witness for C10 with the literal token `"abc"`. -/
theorem c10_witness :
    (String.toList "abc" ≠ [] ∧
     String.toList "abc" ∈ splitOnChar ',' (String.toList "abc") ∧
     pyInt (String.toList "abc") = none ∧
     parsedParam none = some none) ∧
    ((∀ ip, recipeListEndpoint dbAB 1 (some (String.toList "abc")) ip =
        (dbAB, ApiResult.serverError)) ∧
     recipeListEndpoint dbAB 1 none (some (String.toList "abc")) =
        (dbAB, ApiResult.serverError) ∧
     tagListEndpoint dbAB 1 (some (String.toList "abc")) =
        (dbAB, ApiResult.serverError) ∧
     ingredientListEndpoint dbAB 1 (some (String.toList "abc")) =
        (dbAB, ApiResult.serverError) ∧
     (recipeListEndpoint dbAB 1 (some (String.toList "abc")) none).2 ≠
        ApiResult.badRequest) :=
  ⟨⟨by decide, by decide, by decide, by decide⟩,
   c10_unparsed_int_raises dbAB 1 (String.toList "abc") (String.toList "abc")
     (String.toList "abc") none none (by decide) (by decide) (by decide)
     (by decide) (by decide)⟩

/-- C5: the recipe list with parsed `tags` / `ingredients` parameters is
exactly the acting user's recipes having at least one related tag id in
the tags list (when present) and at least one related ingredient id in
the ingredients list (when present), ordered by descending id, without
duplicates. -/
theorem c5_recipe_list_filter (db : DB) (u : Nat) (tp ip : Option PyStr)
    (ot oi : Option (List Int)) (rs : List Recipe)
    (htp : parsedParam tp = some ot) (hip : parsedParam ip = some oi)
    (hq : recipeGetQueryset db u tp ip = some rs) :
    (∀ r, r ∈ rs ↔ r ∈ db.recipes ∧ r.user = u ∧
      (∀ ids, ot = some ids → ∃ t ∈ r.tags, (t : Int) ∈ ids) ∧
      (∀ ids, oi = some ids → ∃ i ∈ r.ingredients, (i : Int) ∈ ids)) ∧
    List.Sorted recipeGE rs ∧ rs.Nodup := by
  have hX := optFilter_of_parsedParam htp filterByTags db.recipes
  have hY := optFilter_of_parsedParam hip filterByIngredients
    (applyIdFilter ot filterByTags db.recipes)
  unfold recipeGetQueryset at hq
  rw [hX, Option.some_bind, hY, Option.map_some'] at hq
  simp only [Option.some.injEq] at hq
  subst hq
  have hXmem : ∀ r : Recipe,
      r ∈ applyIdFilter ot filterByTags db.recipes ↔
      r ∈ db.recipes ∧ (∀ ids, ot = some ids → ∃ t ∈ r.tags, (t : Int) ∈ ids) := by
    intro r
    rcases ot with _ | ids
    · simp [applyIdFilter]
    · simp only [applyIdFilter, filterByTags, List.mem_filter, List.any_eq_true,
        List.contains, List.elem_eq_mem, decide_eq_true_eq, Option.some.injEq]
      constructor
      · rintro ⟨hm, tg, htg, hin⟩
        exact ⟨hm, fun ids2 h2 => ⟨tg, htg, h2 ▸ hin⟩⟩
      · rintro ⟨hm, hc⟩
        obtain ⟨tg, htg, hin⟩ := hc ids rfl
        exact ⟨hm, tg, htg, hin⟩
  have hYmem : ∀ r : Recipe,
      r ∈ applyIdFilter oi filterByIngredients
            (applyIdFilter ot filterByTags db.recipes) ↔
      r ∈ applyIdFilter ot filterByTags db.recipes ∧
      (∀ ids, oi = some ids → ∃ i ∈ r.ingredients, (i : Int) ∈ ids) := by
    intro r
    rcases oi with _ | ids
    · simp [applyIdFilter]
    · simp only [applyIdFilter, filterByIngredients, List.mem_filter,
        List.any_eq_true, List.contains, List.elem_eq_mem, decide_eq_true_eq,
        Option.some.injEq]
      constructor
      · rintro ⟨hm, ig, hig, hin⟩
        exact ⟨hm, fun ids2 h2 => ⟨ig, hig, h2 ▸ hin⟩⟩
      · rintro ⟨hm, hc⟩
        obtain ⟨ig, hig, hin⟩ := hc ids rfl
        exact ⟨hm, ig, hig, hin⟩
  refine ⟨?_, ?_, List.nodup_dedup _⟩
  · intro r
    rw [List.mem_dedup, (List.perm_insertionSort recipeGE _).mem_iff,
      List.mem_filter, hYmem r, hXmem r]
    simp only [decide_eq_true_eq]
    tauto
  · exact List.Pairwise.sublist (List.dedup_sublist _)
      (List.sorted_insertionSort recipeGE _)

/-- Sample data for the C5 witness: three owned recipes with tag links
1, 2, 3 and one foreign recipe also linked to tag 1. -/
def rc1 : Recipe := ⟨1, 1, [], 0, 0, [], [], none, [1], []⟩

def rc2 : Recipe := ⟨2, 1, [], 0, 0, [], [], none, [2], []⟩

def rc3 : Recipe := ⟨3, 1, [], 0, 0, [], [], none, [3], []⟩

def rc4 : Recipe := ⟨4, 2, [], 0, 0, [], [], none, [1], []⟩

def dbC5 : DB := ⟨[userA, userB], [rc1, rc2, rc3, rc4], [], [], 3, 5, 1, 1⟩

/-- Witness for C5: `tags=1,2` returns exactly the owner's recipes 2 and 1
in descending id order. -/
theorem c5_witness :
    (parsedParam (some (String.toList "1,2")) = some (some [1, 2]) ∧
     parsedParam none = some none ∧
     recipeGetQueryset dbC5 1 (some (String.toList "1,2")) none =
       some [rc2, rc1]) ∧
    ((∀ r, r ∈ [rc2, rc1] ↔ r ∈ dbC5.recipes ∧ r.user = 1 ∧
       (∀ ids, (some [(1 : Int), 2] : Option (List Int)) = some ids →
         ∃ t ∈ r.tags, (t : Int) ∈ ids) ∧
       (∀ ids, (none : Option (List Int)) = some ids →
         ∃ i ∈ r.ingredients, (i : Int) ∈ ids)) ∧
     List.Sorted recipeGE [rc2, rc1] ∧ ([rc2, rc1] : List Recipe).Nodup) :=
  ⟨⟨by decide, by decide, by decide⟩,
   c5_recipe_list_filter dbC5 1 (some (String.toList "1,2")) none
     (some [1, 2]) none [rc2, rc1] (by decide) (by decide) (by decide)⟩

/-! ## Claims about recipe updates -/

/-- Without list query parameters the recipe queryset is total. -/
theorem recipeGetQueryset_no_params (db : DB) (u : Nat) :
    recipeGetQueryset db u none none =
      some ((List.insertionSort recipeGE
        (db.recipes.filter (fun r => decide (r.user = u)))).dedup) := rfl

/-- An owned recipe pk is found by `get_object`, yielding a row with that
pk owned by the requester. -/
theorem recipeGetObject_owned {db : DB} {u : Nat} {r : Recipe}
    (hr : r ∈ db.recipes) (hu : r.user = u) :
    ∃ x, recipeGetObject db u r.id = some x ∧ x.id = r.id ∧ x.user = u := by
  unfold recipeGetObject
  rw [recipeGetQueryset_no_params, Option.some_bind]
  have hmem : r ∈ (List.insertionSort recipeGE
      (db.recipes.filter (fun x => decide (x.user = u)))).dedup := by
    rw [List.mem_dedup, (List.perm_insertionSort recipeGE _).mem_iff,
      List.mem_filter]
    exact ⟨hr, decide_eq_true hu⟩
  have hsome : (((List.insertionSort recipeGE
      (db.recipes.filter (fun x => decide (x.user = u)))).dedup).find?
        (fun x => decide (x.id = r.id))).isSome := by
    rw [List.find?_isSome]
    exact ⟨r, hmem, by simp⟩
  obtain ⟨x, hx⟩ := Option.isSome_iff_exists.mp hsome
  have hpx := List.find?_some hx
  simp only [decide_eq_true_eq] at hpx
  have hxm := List.mem_of_find?_eq_some hx
  rw [List.mem_dedup, (List.perm_insertionSort recipeGE _).mem_iff,
    List.mem_filter] at hxm
  exact ⟨x, hx, hpx, of_decide_eq_true hxm.2⟩

theorem getOrCreateTag_fst_recipes (db : DB) (u : Nat) (d : TagDescriptor) :
    (getOrCreateTag db u d).1.recipes = db.recipes := by
  unfold getOrCreateTag
  rcases db.tags.find? (tagKey u d.name) with _ | t <;> rfl

theorem getOrCreateIngredient_fst_recipes (db : DB) (u : Nat)
    (d : IngredientDescriptor) :
    (getOrCreateIngredient db u d).1.recipes = db.recipes := by
  unfold getOrCreateIngredient
  rcases db.ingredients.find? (ingredientKey u d.name d.quantity) with _ | i <;> rfl

theorem attachTag_user (r : Recipe) (tid : Nat) :
    (attachTag r tid).user = r.user := by
  unfold attachTag; split <;> rfl

theorem attachTag_id (r : Recipe) (tid : Nat) :
    (attachTag r tid).id = r.id := by
  unfold attachTag; split <;> rfl

theorem attachTag_ingredients (r : Recipe) (tid : Nat) :
    (attachTag r tid).ingredients = r.ingredients := by
  unfold attachTag; split <;> rfl

theorem attachIngredient_user (r : Recipe) (iid : Nat) :
    (attachIngredient r iid).user = r.user := by
  unfold attachIngredient; split <;> rfl

theorem attachIngredient_id (r : Recipe) (iid : Nat) :
    (attachIngredient r iid).id = r.id := by
  unfold attachIngredient; split <;> rfl

theorem attachIngredient_tags (r : Recipe) (iid : Nat) :
    (attachIngredient r iid).tags = r.tags := by
  unfold attachIngredient; split <;> rfl

theorem addTags_fst_recipes (u : Nat) (ds : List TagDescriptor) (db : DB)
    (r : Recipe) : (addTags u ds db r).1.recipes = db.recipes := by
  induction ds generalizing db r with
  | nil => rfl
  | cons d rest ih =>
    simp only [addTags]
    rw [ih, getOrCreateTag_fst_recipes]

theorem addIngredients_fst_recipes (u : Nat) (ds : List IngredientDescriptor)
    (db : DB) (r : Recipe) : (addIngredients u ds db r).1.recipes = db.recipes := by
  induction ds generalizing db r with
  | nil => rfl
  | cons d rest ih =>
    simp only [addIngredients]
    rw [ih, getOrCreateIngredient_fst_recipes]

theorem addTags_snd_user (u : Nat) (ds : List TagDescriptor) (db : DB)
    (r : Recipe) : (addTags u ds db r).2.user = r.user := by
  induction ds generalizing db r with
  | nil => rfl
  | cons d rest ih =>
    simp only [addTags]
    rw [ih, attachTag_user]

theorem addTags_snd_id (u : Nat) (ds : List TagDescriptor) (db : DB)
    (r : Recipe) : (addTags u ds db r).2.id = r.id := by
  induction ds generalizing db r with
  | nil => rfl
  | cons d rest ih =>
    simp only [addTags]
    rw [ih, attachTag_id]

theorem addTags_snd_ingredients (u : Nat) (ds : List TagDescriptor) (db : DB)
    (r : Recipe) : (addTags u ds db r).2.ingredients = r.ingredients := by
  induction ds generalizing db r with
  | nil => rfl
  | cons d rest ih =>
    simp only [addTags]
    rw [ih, attachTag_ingredients]

theorem addIngredients_snd_user (u : Nat) (ds : List IngredientDescriptor)
    (db : DB) (r : Recipe) : (addIngredients u ds db r).2.user = r.user := by
  induction ds generalizing db r with
  | nil => rfl
  | cons d rest ih =>
    simp only [addIngredients]
    rw [ih, attachIngredient_user]

theorem addIngredients_snd_id (u : Nat) (ds : List IngredientDescriptor)
    (db : DB) (r : Recipe) : (addIngredients u ds db r).2.id = r.id := by
  induction ds generalizing db r with
  | nil => rfl
  | cons d rest ih =>
    simp only [addIngredients]
    rw [ih, attachIngredient_id]

theorem addIngredients_snd_tags (u : Nat) (ds : List IngredientDescriptor)
    (db : DB) (r : Recipe) : (addIngredients u ds db r).2.tags = r.tags := by
  induction ds generalizing db r with
  | nil => rfl
  | cons d rest ih =>
    simp only [addIngredients]
    rw [ih, attachIngredient_tags]

/-- The serializer update never changes the owner of the instance: the
validated data has no owner field to set. -/
theorem serializerUpdate_snd_user (u : Nat) (r : Recipe)
    (vd : RecipeValidatedData) (db : DB) :
    (serializerUpdate u r vd db).2.user = r.user := by
  rcases htg : vd.tags with _ | ds <;> rcases hin : vd.ingredients with _ | ds2 <;>
    simp only [serializerUpdate, htg, hin, applyAttrs,
      addIngredients_snd_user, addTags_snd_user]

/-- The serializer update never changes the primary key. -/
theorem serializerUpdate_snd_id (u : Nat) (r : Recipe)
    (vd : RecipeValidatedData) (db : DB) :
    (serializerUpdate u r vd db).2.id = r.id := by
  rcases htg : vd.tags with _ | ds <;> rcases hin : vd.ingredients with _ | ds2 <;>
    simp only [serializerUpdate, htg, hin, applyAttrs,
      addIngredients_snd_id, addTags_snd_id]

/-- After a serializer update, the recipe table is the old table with the
row of that pk replaced by the updated instance. -/
theorem serializerUpdate_fst_recipes (u : Nat) (r : Recipe)
    (vd : RecipeValidatedData) (db : DB) :
    (serializerUpdate u r vd db).1.recipes =
      db.recipes.map
        (fun x => if x.id = r.id then (serializerUpdate u r vd db).2 else x) := by
  have hid : (serializerUpdate u r vd db).2.id = r.id :=
    serializerUpdate_snd_id u r vd db
  rw [← hid]
  rcases htg : vd.tags with _ | ds <;> rcases hin : vd.ingredients with _ | ds2 <;>
    simp only [serializerUpdate, htg, hin, saveRecipe, applyAttrs,
      addIngredients_fst_recipes, addTags_fst_recipes]

/-- C3: updating an owned recipe with a payload carrying a client-supplied
owner field succeeds with 200 and leaves the owner unchanged, both in the
response row and in the stored table; the same holds for a full (PUT)
update when the payload passes full validation. -/
theorem c3_owner_field_ignored (db : DB) (u w pk : Nat) (r : Recipe)
    (p : RawRecipePayload) (vd : RecipeValidatedData)
    (hr : r ∈ db.recipes) (hid : r.id = pk) (hu : r.user = u)
    (hpu : p.user = some w) (hv : validateRecipePayload p = some vd) :
    (∃ rr, (recipeUpdateEndpoint db u pk p).2 = ApiResult.ok rr ∧
      rr.user = r.user) ∧
    (∀ x ∈ (recipeUpdateEndpoint db u pk p).1.recipes, x.id = pk →
      x.user = r.user) ∧
    (∀ vdf, validateRecipeFull p = some vdf →
      (∃ rr, (recipePutEndpoint db u pk p).2 = ApiResult.ok rr ∧
        rr.user = r.user) ∧
      (∀ x ∈ (recipePutEndpoint db u pk p).1.recipes, x.id = pk →
        x.user = r.user)) := by
  subst hid
  obtain ⟨x, hobj, hxid, hxu⟩ := recipeGetObject_owned hr hu
  have hxur : x.user = r.user := hxu.trans hu.symm
  refine ⟨?_, ?_, ?_⟩
  · simp only [recipeUpdateEndpoint, hobj, hv]
    exact ⟨_, rfl, (serializerUpdate_snd_user u x vd db).trans hxur⟩
  · simp only [recipeUpdateEndpoint, hobj, hv]
    intro y hy hyid
    rw [serializerUpdate_fst_recipes] at hy
    obtain ⟨z, hz, hzy⟩ := List.mem_map.mp hy
    by_cases hzid : z.id = x.id
    · rw [if_pos hzid] at hzy
      rw [← hzy]
      exact (serializerUpdate_snd_user u x vd db).trans hxur
    · rw [if_neg hzid] at hzy
      exact absurd ((hzy ▸ hyid).trans hxid.symm) hzid
  · intro vdf hvf
    constructor
    · simp only [recipePutEndpoint, hobj, hvf]
      exact ⟨_, rfl, (serializerUpdate_snd_user u x vdf db).trans hxur⟩
    · simp only [recipePutEndpoint, hobj, hvf]
      intro y hy hyid
      rw [serializerUpdate_fst_recipes] at hy
      obtain ⟨z, hz, hzy⟩ := List.mem_map.mp hy
      by_cases hzid : z.id = x.id
      · rw [if_pos hzid] at hzy
        rw [← hzy]
        exact (serializerUpdate_snd_user u x vdf db).trans hxur
      · rw [if_neg hzid] at hzy
        exact absurd ((hzy ▸ hyid).trans hxid.symm) hzid

/-- A payload that tries to set the owner to user 2 while also carrying
the full required fields. -/
def p3 : RawRecipePayload :=
  ⟨some (String.toList "t"), some 1, some 1, none, none, none, none, none,
   some 2⟩

/-- The validated form of `p3`: the owner field is gone. -/
def vd3 : RecipeValidatedData :=
  ⟨some (String.toList "t"), some 1, some 1, none, none, none, none, none⟩

/-- Witness for C3: user 1 updates their recipe with a payload claiming
owner 2; the stored and returned owner stay 1. -/
theorem c3_witness :
    (recA ∈ dbAB.recipes ∧ recA.id = 1 ∧ recA.user = 1 ∧
     p3.user = some 2 ∧ validateRecipePayload p3 = some vd3) ∧
    ((∃ rr, (recipeUpdateEndpoint dbAB 1 1 p3).2 = ApiResult.ok rr ∧
       rr.user = recA.user) ∧
     (∀ x ∈ (recipeUpdateEndpoint dbAB 1 1 p3).1.recipes, x.id = 1 →
       x.user = recA.user) ∧
     (∀ vdf, validateRecipeFull p3 = some vdf →
       (∃ rr, (recipePutEndpoint dbAB 1 1 p3).2 = ApiResult.ok rr ∧
         rr.user = recA.user) ∧
       (∀ x ∈ (recipePutEndpoint dbAB 1 1 p3).1.recipes, x.id = 1 →
         x.user = recA.user))) :=
  ⟨⟨by decide, by decide, by decide, by decide, by decide⟩,
   c3_owner_field_ignored dbAB 1 2 1 recA p3 vd3 (by decide) (by decide)
     (by decide) (by decide) (by decide)⟩

/-! ## Claims about nested relation reconciliation -/

/-- Resolution is stable under appending rows to the tag table. -/
theorem resolveTagId_append {t1 : List Tag} {u : Nat} {n : PyStr} {tid : Nat}
    (l2 : List Tag) (h : resolveTagId t1 u n = some tid) :
    resolveTagId (t1 ++ l2) u n = some tid := by
  unfold resolveTagId at h ⊢
  obtain ⟨t, ht, htid⟩ := Option.map_eq_some'.mp h
  rw [List.find?_append, ht]
  simp [htid]

/-- Resolution is stable under appending rows to the ingredient table. -/
theorem resolveIngredientId_append {t1 : List Ingredient} {u : Nat}
    {n : PyStr} {q : Int} {iid : Nat} (l2 : List Ingredient)
    (h : resolveIngredientId t1 u n q = some iid) :
    resolveIngredientId (t1 ++ l2) u n q = some iid := by
  unfold resolveIngredientId at h ⊢
  obtain ⟨t, ht, htid⟩ := Option.map_eq_some'.mp h
  rw [List.find?_append, ht]
  simp [htid]

/-- After `get_or_create`, the descriptor's key resolves to the returned
row id. -/
theorem getOrCreateTag_resolve (db : DB) (u : Nat) (d : TagDescriptor) :
    resolveTagId (getOrCreateTag db u d).1.tags u d.name =
      some (getOrCreateTag db u d).2 := by
  rcases hf : db.tags.find? (tagKey u d.name) with _ | t <;>
    simp only [getOrCreateTag, hf]
  · unfold resolveTagId
    rw [List.find?_append, hf]
    simp [tagKey]
  · unfold resolveTagId
    rw [hf]
    rfl

theorem getOrCreateIngredient_resolve (db : DB) (u : Nat)
    (d : IngredientDescriptor) :
    resolveIngredientId (getOrCreateIngredient db u d).1.ingredients u
      d.name d.quantity = some (getOrCreateIngredient db u d).2 := by
  rcases hf : db.ingredients.find? (ingredientKey u d.name d.quantity) with _ | t <;>
    simp only [getOrCreateIngredient, hf]
  · unfold resolveIngredientId
    rw [List.find?_append, hf]
    simp [ingredientKey]
  · unfold resolveIngredientId
    rw [hf]
    rfl

theorem getOrCreateTag_tags_append (db : DB) (u : Nat) (d : TagDescriptor) :
    ∃ l2, (getOrCreateTag db u d).1.tags = db.tags ++ l2 := by
  rcases hf : db.tags.find? (tagKey u d.name) with _ | t <;>
    simp only [getOrCreateTag, hf]
  · exact ⟨[⟨db.nextTagId, u, d.name⟩], rfl⟩
  · exact ⟨[], (List.append_nil _).symm⟩

theorem getOrCreateIngredient_ingredients_append (db : DB) (u : Nat)
    (d : IngredientDescriptor) :
    ∃ l2, (getOrCreateIngredient db u d).1.ingredients = db.ingredients ++ l2 := by
  rcases hf : db.ingredients.find? (ingredientKey u d.name d.quantity) with _ | t <;>
    simp only [getOrCreateIngredient, hf]
  · exact ⟨[⟨db.nextIngredientId, u, d.name, d.quantity⟩], rfl⟩
  · exact ⟨[], (List.append_nil _).symm⟩

theorem addTags_tags_append (u : Nat) (ds : List TagDescriptor) (db : DB)
    (r : Recipe) : ∃ l2, (addTags u ds db r).1.tags = db.tags ++ l2 := by
  induction ds generalizing db r with
  | nil => exact ⟨[], (List.append_nil _).symm⟩
  | cons d rest ih =>
    simp only [addTags]
    obtain ⟨l1, h1⟩ := getOrCreateTag_tags_append db u d
    obtain ⟨l2, h2⟩ := ih (getOrCreateTag db u d).1
      (attachTag r (getOrCreateTag db u d).2)
    exact ⟨l1 ++ l2, by rw [h2, h1, List.append_assoc]⟩

theorem addIngredients_ingredients_append (u : Nat)
    (ds : List IngredientDescriptor) (db : DB) (r : Recipe) :
    ∃ l2, (addIngredients u ds db r).1.ingredients = db.ingredients ++ l2 := by
  induction ds generalizing db r with
  | nil => exact ⟨[], (List.append_nil _).symm⟩
  | cons d rest ih =>
    simp only [addIngredients]
    obtain ⟨l1, h1⟩ := getOrCreateIngredient_ingredients_append db u d
    obtain ⟨l2, h2⟩ := ih (getOrCreateIngredient db u d).1
      (attachIngredient r (getOrCreateIngredient db u d).2)
    exact ⟨l1 ++ l2, by rw [h2, h1, List.append_assoc]⟩

theorem getOrCreateTag_fst_ingredients (db : DB) (u : Nat) (d : TagDescriptor) :
    (getOrCreateTag db u d).1.ingredients = db.ingredients := by
  rcases hf : db.tags.find? (tagKey u d.name) with _ | t <;>
    simp only [getOrCreateTag, hf]

theorem getOrCreateIngredient_fst_tags (db : DB) (u : Nat)
    (d : IngredientDescriptor) :
    (getOrCreateIngredient db u d).1.tags = db.tags := by
  rcases hf : db.ingredients.find? (ingredientKey u d.name d.quantity) with _ | t <;>
    simp only [getOrCreateIngredient, hf]

theorem addTags_fst_ingredients (u : Nat) (ds : List TagDescriptor) (db : DB)
    (r : Recipe) : (addTags u ds db r).1.ingredients = db.ingredients := by
  induction ds generalizing db r with
  | nil => rfl
  | cons d rest ih =>
    simp only [addTags]
    rw [ih, getOrCreateTag_fst_ingredients]

theorem addIngredients_fst_tags (u : Nat) (ds : List IngredientDescriptor)
    (db : DB) (r : Recipe) : (addIngredients u ds db r).1.tags = db.tags := by
  induction ds generalizing db r with
  | nil => rfl
  | cons d rest ih =>
    simp only [addIngredients]
    rw [ih, getOrCreateIngredient_fst_tags]

theorem attachTag_mem (r : Recipe) (tid tid2 : Nat) :
    tid2 ∈ (attachTag r tid).tags ↔ tid2 ∈ r.tags ∨ tid2 = tid := by
  unfold attachTag
  by_cases hm : tid ∈ r.tags
  · rw [if_pos hm]
    constructor
    · exact Or.inl
    · rintro (h | rfl)
      · exact h
      · exact hm
  · rw [if_neg hm]
    simp [List.mem_append]

theorem attachIngredient_mem (r : Recipe) (iid iid2 : Nat) :
    iid2 ∈ (attachIngredient r iid).ingredients ↔
      iid2 ∈ r.ingredients ∨ iid2 = iid := by
  unfold attachIngredient
  by_cases hm : iid ∈ r.ingredients
  · rw [if_pos hm]
    constructor
    · exact Or.inl
    · rintro (h | rfl)
      · exact h
      · exact hm
  · rw [if_neg hm]
    simp [List.mem_append]

theorem attachTag_nodup (r : Recipe) (tid : Nat) (h : r.tags.Nodup) :
    (attachTag r tid).tags.Nodup := by
  unfold attachTag
  by_cases hm : tid ∈ r.tags
  · rw [if_pos hm]; exact h
  · rw [if_neg hm]
    simp [List.nodup_append, h, hm]

theorem attachIngredient_nodup (r : Recipe) (iid : Nat)
    (h : r.ingredients.Nodup) : (attachIngredient r iid).ingredients.Nodup := by
  unfold attachIngredient
  by_cases hm : iid ∈ r.ingredients
  · rw [if_pos hm]; exact h
  · rw [if_neg hm]
    simp [List.nodup_append, h, hm]

theorem addTags_nodup (u : Nat) (ds : List TagDescriptor) (db : DB)
    (r : Recipe) (h : r.tags.Nodup) : (addTags u ds db r).2.tags.Nodup := by
  induction ds generalizing db r with
  | nil => exact h
  | cons d rest ih =>
    simp only [addTags]
    exact ih _ _ (attachTag_nodup _ _ h)

theorem addIngredients_nodup (u : Nat) (ds : List IngredientDescriptor)
    (db : DB) (r : Recipe) (h : r.ingredients.Nodup) :
    (addIngredients u ds db r).2.ingredients.Nodup := by
  induction ds generalizing db r with
  | nil => exact h
  | cons d rest ih =>
    simp only [addIngredients]
    exact ih _ _ (attachIngredient_nodup _ _ h)

/-- Membership after `_add_tags`: exactly the old attachments plus, for
each descriptor, the id that its `(user, name)` key resolves to in the
final database. -/
theorem addTags_mem (u : Nat) (ds : List TagDescriptor) (db : DB)
    (r : Recipe) (tid : Nat) :
    tid ∈ (addTags u ds db r).2.tags ↔
      tid ∈ r.tags ∨
        ∃ d ∈ ds, resolveTagId (addTags u ds db r).1.tags u d.name = some tid := by
  induction ds generalizing db r with
  | nil => simp [addTags]
  | cons d rest ih =>
    simp only [addTags]
    have hresF : resolveTagId
        (addTags u rest (getOrCreateTag db u d).1
          (attachTag r (getOrCreateTag db u d).2)).1.tags u d.name =
        some (getOrCreateTag db u d).2 := by
      obtain ⟨l2, hext⟩ := addTags_tags_append u rest (getOrCreateTag db u d).1
        (attachTag r (getOrCreateTag db u d).2)
      rw [hext]
      exact resolveTagId_append l2 (getOrCreateTag_resolve db u d)
    rw [ih]
    rw [attachTag_mem]
    constructor
    · rintro ((h | rfl) | ⟨d2, hd2, hres⟩)
      · exact Or.inl h
      · exact Or.inr ⟨d, List.mem_cons_self _ _, hresF⟩
      · exact Or.inr ⟨d2, List.mem_cons_of_mem _ hd2, hres⟩
    · rintro (h | ⟨d2, hd2, hres⟩)
      · exact Or.inl (Or.inl h)
      · rcases List.mem_cons.mp hd2 with heq | hd3
        · rw [heq] at hres
          have ht : some (getOrCreateTag db u d).2 = some tid :=
            hresF.symm.trans hres
          injection ht with ht
          exact Or.inl (Or.inr ht.symm)
        · exact Or.inr ⟨d2, hd3, hres⟩

/-- Membership after `_add_ingredients`: exactly the old attachments plus,
for each descriptor, the id its `(user, name, quantity)` key resolves to
in the final database. -/
theorem addIngredients_mem (u : Nat) (ds : List IngredientDescriptor)
    (db : DB) (r : Recipe) (iid : Nat) :
    iid ∈ (addIngredients u ds db r).2.ingredients ↔
      iid ∈ r.ingredients ∨
        ∃ d ∈ ds, resolveIngredientId (addIngredients u ds db r).1.ingredients
          u d.name d.quantity = some iid := by
  induction ds generalizing db r with
  | nil => simp [addIngredients]
  | cons d rest ih =>
    simp only [addIngredients]
    have hresF : resolveIngredientId
        (addIngredients u rest (getOrCreateIngredient db u d).1
          (attachIngredient r (getOrCreateIngredient db u d).2)).1.ingredients
          u d.name d.quantity =
        some (getOrCreateIngredient db u d).2 := by
      obtain ⟨l2, hext⟩ := addIngredients_ingredients_append u rest
        (getOrCreateIngredient db u d).1
        (attachIngredient r (getOrCreateIngredient db u d).2)
      rw [hext]
      exact resolveIngredientId_append l2 (getOrCreateIngredient_resolve db u d)
    rw [ih]
    rw [attachIngredient_mem]
    constructor
    · rintro ((h | rfl) | ⟨d2, hd2, hres⟩)
      · exact Or.inl h
      · exact Or.inr ⟨d, List.mem_cons_self _ _, hresF⟩
      · exact Or.inr ⟨d2, List.mem_cons_of_mem _ hd2, hres⟩
    · rintro (h | ⟨d2, hd2, hres⟩)
      · exact Or.inl (Or.inl h)
      · rcases List.mem_cons.mp hd2 with heq | hd3
        · rw [heq] at hres
          have ht : some (getOrCreateIngredient db u d).2 = some iid :=
            hresF.symm.trans hres
          injection ht with ht
          exact Or.inl (Or.inr ht.symm)
        · exact Or.inr ⟨d2, hd3, hres⟩

/-- C4: on update, a present `tags` (resp. `ingredients`) field replaces
the attached set: afterwards a tag id is attached iff it is what the
`(user, name)` key (resp. `(user, name, quantity)` key) of one of the
descriptors resolves to in the resulting database, with no duplicate
links; an absent field leaves the existing links untouched. -/
theorem c4_relation_replacement (db : DB) (u : Nat) (r : Recipe)
    (vd : RecipeValidatedData) :
    (∀ ds, vd.tags = some ds →
      (∀ tid, tid ∈ (serializerUpdate u r vd db).2.tags ↔
        ∃ d ∈ ds, resolveTagId (serializerUpdate u r vd db).1.tags u d.name =
          some tid) ∧
      (serializerUpdate u r vd db).2.tags.Nodup) ∧
    (vd.tags = none → (serializerUpdate u r vd db).2.tags = r.tags) ∧
    (∀ ds, vd.ingredients = some ds →
      (∀ iid, iid ∈ (serializerUpdate u r vd db).2.ingredients ↔
        ∃ d ∈ ds, resolveIngredientId
          (serializerUpdate u r vd db).1.ingredients u d.name d.quantity =
            some iid) ∧
      (serializerUpdate u r vd db).2.ingredients.Nodup) ∧
    (vd.ingredients = none →
      (serializerUpdate u r vd db).2.ingredients = r.ingredients) := by
  rcases htg : vd.tags with _ | ds0 <;> rcases hin : vd.ingredients with _ | ds1
  · refine ⟨?_, ?_, ?_, ?_⟩
    · intro ds hds; cases hds
    · intro _
      simp only [serializerUpdate, htg, hin, applyAttrs]
    · intro ds hds; cases hds
    · intro _
      simp only [serializerUpdate, htg, hin, applyAttrs]
  · refine ⟨?_, ?_, ?_, ?_⟩
    · intro ds hds; cases hds
    · intro _
      simp only [serializerUpdate, htg, hin, applyAttrs, addIngredients_snd_tags]
    · intro ds hds
      injection hds with heq
      subst heq
      constructor
      · intro iid
        simp only [serializerUpdate, htg, hin, applyAttrs, saveRecipe]
        rw [addIngredients_mem]
        simp
      · simp only [serializerUpdate, htg, hin, applyAttrs]
        exact addIngredients_nodup u _ db _ List.nodup_nil
    · intro hds; cases hds
  · refine ⟨?_, ?_, ?_, ?_⟩
    · intro ds hds
      injection hds with heq
      subst heq
      constructor
      · intro tid
        simp only [serializerUpdate, htg, hin, applyAttrs, saveRecipe]
        rw [addTags_mem]
        simp
      · simp only [serializerUpdate, htg, hin, applyAttrs]
        exact addTags_nodup u _ db _ List.nodup_nil
    · intro hds; cases hds
    · intro ds hds; cases hds
    · intro _
      simp only [serializerUpdate, htg, hin, applyAttrs, addTags_snd_ingredients]
  · refine ⟨?_, ?_, ?_, ?_⟩
    · intro ds hds
      injection hds with heq
      subst heq
      constructor
      · intro tid
        simp only [serializerUpdate, htg, hin, applyAttrs, saveRecipe,
          addIngredients_snd_tags, addIngredients_fst_tags]
        rw [addTags_mem]
        simp
      · simp only [serializerUpdate, htg, hin, applyAttrs,
          addIngredients_snd_tags]
        exact addTags_nodup u _ db _ List.nodup_nil
    · intro hds; cases hds
    · intro ds hds
      injection hds with heq
      subst heq
      constructor
      · intro iid
        simp only [serializerUpdate, htg, hin, applyAttrs, saveRecipe]
        rw [addIngredients_mem]
        simp
      · simp only [serializerUpdate, htg, hin, applyAttrs]
        exact addIngredients_nodup u _ _ _ List.nodup_nil
    · intro hds; cases hds

/-- Descriptors for the C4 witness: the existing tag name twice plus a
novel one. -/
def ds4t : List TagDescriptor :=
  [⟨String.toList "vegan"⟩, ⟨String.toList "new"⟩, ⟨String.toList "vegan"⟩]

def ds4i : List IngredientDescriptor := [⟨String.toList "salt", 1⟩]

def vd4 : RecipeValidatedData :=
  ⟨none, none, none, none, none, none, some ds4t, some ds4i⟩

/-- Witness for C4: patching user 1's recipe with tags
`[vegan, new, vegan]` yields exactly the links `[1, 3]` (existing vegan
tag 1, newly created tag 3, no duplicate), and the characterization
theorem applies to this run. -/
theorem c4_witness :
    (vd4.tags = some ds4t ∧ vd4.ingredients = some ds4i ∧
     (serializerUpdate 1 recA vd4 dbAB).2.tags = [1, 3] ∧
     (serializerUpdate 1 recA vd4 dbAB).2.ingredients = [1]) ∧
    ((∀ tid, tid ∈ (serializerUpdate 1 recA vd4 dbAB).2.tags ↔
        ∃ d ∈ ds4t, resolveTagId (serializerUpdate 1 recA vd4 dbAB).1.tags 1
          d.name = some tid) ∧
     (serializerUpdate 1 recA vd4 dbAB).2.tags.Nodup) ∧
    ((∀ iid, iid ∈ (serializerUpdate 1 recA vd4 dbAB).2.ingredients ↔
        ∃ d ∈ ds4i, resolveIngredientId
          (serializerUpdate 1 recA vd4 dbAB).1.ingredients 1 d.name d.quantity =
            some iid) ∧
     (serializerUpdate 1 recA vd4 dbAB).2.ingredients.Nodup) :=
  ⟨⟨by decide, by decide, by decide, by decide⟩,
   (c4_relation_replacement dbAB 1 recA vd4).1 ds4t (by decide),
   (c4_relation_replacement dbAB 1 recA vd4).2.2.1 ds4i (by decide)⟩

theorem validateOptList_eq_none {f : α → Option β} {o : Option (List α)}
    {l : List α} {a : α} (ho : o = some l) (ha : a ∈ l) (hf : f a = none) :
    validateOptList f o = none := by
  subst ho
  simp only [validateOptList, mapOrNone_eq_none ha hf]
  rfl

/-- One invalid nested descriptor invalidates the whole payload. -/
theorem validateRecipePayload_eq_none {p : RawRecipePayload}
    (hbad : (∃ ds, p.tags = some ds ∧
              ∃ d ∈ ds, validateTagDescriptor d = none) ∨
            (∃ ds, p.ingredients = some ds ∧
              ∃ d ∈ ds, validateIngredientDescriptor d = none)) :
    validateRecipePayload p = none := by
  rcases hbad with ⟨ds, hds, d, hd, hf⟩ | ⟨ds, hds, d, hd, hf⟩
  · rcases h2 : validateOptList validateIngredientDescriptor p.ingredients
        with _ | x <;>
      simp only [validateRecipePayload, validateOptList_eq_none hds hd hf, h2]
  · rcases h1 : validateOptList validateTagDescriptor p.tags with _ | x <;>
      simp only [validateRecipePayload, h1,
        validateOptList_eq_none hds hd hf]

theorem validateRecipeFull_eq_none {p : RawRecipePayload}
    (h : validateRecipePayload p = none) : validateRecipeFull p = none := by
  unfold validateRecipeFull
  rw [h]

/-- C8: when some nested tag or ingredient descriptor is invalid, the whole
create / update / full-update request is rejected as one unit: the
database is unchanged (no recipe row created, no partial attachment), and
the response is a validation failure (or not-found when the target pk is
not visible). -/
theorem c8_invalid_descriptor_aborts (db : DB) (u pk : Nat)
    (p : RawRecipePayload)
    (hbad : (∃ ds, p.tags = some ds ∧
              ∃ d ∈ ds, validateTagDescriptor d = none) ∨
            (∃ ds, p.ingredients = some ds ∧
              ∃ d ∈ ds, validateIngredientDescriptor d = none)) :
    recipeCreateEndpoint db u p = (db, ApiResult.badRequest) ∧
    (recipeUpdateEndpoint db u pk p).1 = db ∧
    ((recipeUpdateEndpoint db u pk p).2 = ApiResult.badRequest ∨
     (recipeUpdateEndpoint db u pk p).2 = ApiResult.notFound) ∧
    (recipePutEndpoint db u pk p).1 = db ∧
    ((recipePutEndpoint db u pk p).2 = ApiResult.badRequest ∨
     (recipePutEndpoint db u pk p).2 = ApiResult.notFound) := by
  have hv := validateRecipePayload_eq_none hbad
  have hvf := validateRecipeFull_eq_none hv
  refine ⟨?_, ?_, ?_, ?_, ?_⟩
  · simp only [recipeCreateEndpoint, hvf]
  · rcases ho : recipeGetObject db u pk with _ | r <;>
      simp only [recipeUpdateEndpoint, ho, hv]
  · rcases ho : recipeGetObject db u pk with _ | r
    · simp only [recipeUpdateEndpoint, ho]
      exact Or.inr trivial
    · simp only [recipeUpdateEndpoint, ho, hv]
      exact Or.inl trivial
  · rcases ho : recipeGetObject db u pk with _ | r <;>
      simp only [recipePutEndpoint, ho, hvf]
  · rcases ho : recipeGetObject db u pk with _ | r
    · simp only [recipePutEndpoint, ho]
      exact Or.inr trivial
    · simp only [recipePutEndpoint, ho, hvf]
      exact Or.inl trivial

/-- A create/update body whose single tag descriptor lacks the required
`name`. -/
def p8 : RawRecipePayload :=
  ⟨some (String.toList "t"), some 1, some 1, none, none, none, some [⟨none⟩],
   none, none⟩

/-- Witness for C8: the nameless tag descriptor aborts create and update
against the sample database with no state change. -/
theorem c8_witness :
    (p8.tags = some [⟨none⟩] ∧ validateTagDescriptor ⟨none⟩ = none) ∧
    (recipeCreateEndpoint dbAB 1 p8 = (dbAB, ApiResult.badRequest) ∧
     (recipeUpdateEndpoint dbAB 1 1 p8).1 = dbAB ∧
     ((recipeUpdateEndpoint dbAB 1 1 p8).2 = ApiResult.badRequest ∨
      (recipeUpdateEndpoint dbAB 1 1 p8).2 = ApiResult.notFound) ∧
     (recipePutEndpoint dbAB 1 1 p8).1 = dbAB ∧
     ((recipePutEndpoint dbAB 1 1 p8).2 = ApiResult.badRequest ∨
      (recipePutEndpoint dbAB 1 1 p8).2 = ApiResult.notFound)) :=
  ⟨⟨by decide, by decide⟩,
   c8_invalid_descriptor_aborts dbAB 1 1 p8
     (Or.inl ⟨[⟨none⟩], rfl, ⟨none⟩, by decide, rfl⟩)⟩

end RecipeApp
